import Mathlib

/-!
Verification of the ShopPulse idempotent bulk-ingestion pipeline
(repository ecommerce-backend, files src/shoppulse/core/utils.py,
src/shoppulse/core/views.py, src/shoppulse/core/models.py).

The Python source is shallowly embedded: JSON payloads become the
inductive type JValue, the canonical serialisation performed by
json.dumps(data, sort_keys=True, default=str) becomes dumps, the
idempotency ledger (table core_idempotencykey, one row per key) becomes
an association list from key strings to metadata documents, and the
request handler OrderIngestView.post becomes a pure state-passing
function.  The SHA-256 digest, the field-level validation serializer and
the storage layer's accept/reject behaviour are external collaborators
of the core and are passed in as function parameters (digest, valid,
flushOk).
-/

namespace ShopPulse

/-- JSON-like values as parsed from a request body (Python dicts are
field lists with distinct keys; Decimal and UUID fields arrive as
strings per default=str normalisation). -/
inductive JValue where
  | null : JValue
  | bool (b : Bool) : JValue
  | num (n : Int) : JValue
  | str (s : String) : JValue
  | arr (xs : List JValue) : JValue
  | obj (fields : List (String × JValue)) : JValue

/-- Keys of an object's field list. -/
def fieldKeys (fs : List (String × JValue)) : List String :=
  fs.map Prod.fst

/-- Ordering of object fields by key, modelling sort_keys=True of
json.dumps in generate_request_hash (utils.py line 18). -/
def keyLE (a b : String × JValue) : Prop := a.1 ≤ b.1

instance : DecidableRel keyLE := fun a b => inferInstanceAs (Decidable (a.1 ≤ b.1))

instance : IsTotal (String × JValue) keyLE :=
  ⟨fun a b => le_total a.1 b.1⟩

instance : IsTrans (String × JValue) keyLE :=
  ⟨fun _ _ _ h h' => le_trans h h'⟩

/-- Sorting of an object's fields by key, as json.dumps does with
sort_keys=True. -/
def sortFields (fs : List (String × JValue)) : List (String × JValue) :=
  fs.insertionSort keyLE

mutual

/-- Canonical form of a value: every object's fields recursively sorted
by key.  Serialising the canonical form is exactly what
json.dumps(data, sort_keys=True) does. -/
def canon : JValue → JValue
  | .null => .null
  | .bool b => .bool b
  | .num n => .num n
  | .str s => .str s
  | .arr xs => .arr (canonList xs)
  | .obj fs => .obj (sortFields (canonFields fs))

/-- Canonical form, mapped over a list of values. -/
def canonList : List JValue → List JValue
  | [] => []
  | x :: xs => canon x :: canonList xs

/-- Canonical form, mapped over the values of a field list. -/
def canonFields : List (String × JValue) → List (String × JValue)
  | [] => []
  | (k, v) :: fs => (k, canon v) :: canonFields fs

end

mutual

/-- Serialisation of an already-canonical value, following the textual
conventions of Python's json.dumps. -/
def dumpsRaw : JValue → String
  | .null => "null"
  | .bool true => "true"
  | .bool false => "false"
  | .num n => toString n
  | .str s => "\"" ++ s ++ "\""
  | .arr xs => "[" ++ dumpsRawList xs ++ "]"
  | .obj fs => "\x7b" ++ dumpsRawFields fs ++ "\x7d"

/-- Comma-separated serialisation of array elements. -/
def dumpsRawList : List JValue → String
  | [] => ""
  | [x] => dumpsRaw x
  | x :: xs => dumpsRaw x ++ ", " ++ dumpsRawList xs

/-- Comma-separated serialisation of object fields. -/
def dumpsRawFields : List (String × JValue) → String
  | [] => ""
  | [(k, v)] => "\"" ++ k ++ "\": " ++ dumpsRaw v
  | (k, v) :: fs => "\"" ++ k ++ "\": " ++ dumpsRaw v ++ ", " ++ dumpsRawFields fs

end

/-- Deterministic serialisation with sorted keys: the data_string of
generate_request_hash (utils.py line 18,
json.dumps(data, sort_keys=True, default=str)). -/
def dumps (v : JValue) : String :=
  dumpsRaw (canon v)

/-- Request fingerprint (utils.py lines 11-19): the digest of the
canonical serialisation.  The SHA-256 digest itself is an external
library routine and is passed in as the parameter digest. -/
def generate_request_hash (digest : String → String) (data : JValue) : String :=
  digest (dumps data)

/-- Structured entries of the errors_metadata list built by
OrderIngestView.post: a per-row validation error carrying the 1-based
row number (views.py line 133), a mid-stream batch database error whose
detail names the starting row rows_received - len(order_batch_data)
(views.py lines 121-125), and the trailing-batch database error, whose
detail is just "Final batch failed: ..." with no row information
(views.py line 145). -/
inductive ErrEntry where
  | rowError (row_number : Nat)
  | batchError (startRow : Nat)
  | finalBatchError
deriving DecidableEq, Repr

/-- Python dicts that flow through the idempotency ledger and the
response body, with one optional slot per field name that ever occurs in
the source (absent field = none, matching dict.get semantics).  Used
both for IdempotencyKey.metadata and for response summaries / error
bodies. -/
structure Doc where
  status : Option String := none
  request_hash : Option String := none
  rows_received : Option Nat := none
  rows_inserted : Option Nat := none
  rows_failed : Option Nat := none
  processing_time : Option Nat := none
  idempotency_key : Option (Option String) := none
  errors : Option (List ErrEntry) := none
  error : Option String := none
deriving DecidableEq, Repr

/-- The idempotency ledger: the core_idempotencykey table, one metadata
document per key (models.py lines 81-94; the key column is unique). -/
abbrev Ledger := List (String × Doc)

/-- Lookup IdempotencyKey.objects.get(key=k) (utils.py line 32). -/
def ledgerGet (led : Ledger) (k : String) : Option Doc :=
  (led.find? (fun p => p.1 == k)).map (·.2)

/-- Update the metadata stored under an existing key
(idempotency_key_instance.save(), utils.py line 71). -/
def updateLedger (led : Ledger) (k : String) (d : Doc) : Ledger :=
  led.map fun p => if p.1 = k then (k, d) else p

/-- Metadata written when a key is reserved (utils.py lines 50-56). -/
def pendingDoc (digest : String → String) (request_data : JValue) : Doc :=
  { status := some "PENDING",
    request_hash := some (generate_request_hash digest request_data) }

/-- Error body returned on key reuse with a different payload
(utils.py line 39). -/
def conflictDoc : Doc :=
  { error := some "Idempotency key reused with different payload" }

/-- Result of handle_idempotency: the (result, status) pair of
utils.py lines 22-61, with the reserved IdempotencyKey instance
represented by its key string. -/
inductive HandleOutcome where
  | noKey
  | hit (metadata : Doc)
  | conflict (body : Doc)
  | miss (reservedKey : String)

/-- Embedding of handle_idempotency (utils.py lines 22-61) for one
sequential request: check for an existing key, compare the stored
request_hash against the fingerprint of the incoming payload, or
reserve the key with a PENDING record.  The concurrent IntegrityError
retry branch cannot fire in a sequential run; its retry structure is
modelled separately by handleIdempotencyAttempts. -/
def handle_idempotency (digest : String → String) (idempotency_key : Option String)
    (request_data : JValue) (led : Ledger) : HandleOutcome × Ledger :=
  match idempotency_key with
  | none => (.noKey, led)
  | some k =>
    if k = "" then (.noKey, led)
    else
      match ledgerGet led k with
      | some md =>
        if some (generate_request_hash digest request_data) ≠ md.request_hash then
          (.conflict conflictDoc, led)
        else
          (.hit md, led)
      | none => (.miss k, (k, pendingDoc digest request_data) :: led)

/-- Embedding of finalize_idempotency (utils.py lines 64-71): when a key
instance exists, set status COMPLETED on the summary (an in-place dict
mutation, so the returned body carries it too) and store the summary --
the whole summary and nothing else -- as the record's new metadata. -/
def finalize_idempotency (key_instance : Option String) (response_summary : Doc)
    (led : Ledger) : Doc × Ledger :=
  match key_instance with
  | none => (response_summary, led)
  | some k =>
    let s := { response_summary with status := some "COMPLETED" }
    (s, updateLedger led k s)

/-- Per-attempt environment observation for the reservation path of
handle_idempotency under concurrency: the initial lookup finds a record,
or the create succeeds, or the create raises IntegrityError (a
concurrent request won the race). -/
inductive ReserveObs where
  | found
  | created
  | race
deriving DecidableEq, Repr

/-- Retry skeleton of handle_idempotency (utils.py lines 47-61) against
a trace of per-attempt observations: found or created terminates the
call, race (the IntegrityError branch, line 58) sleeps and re-enters
handle_idempotency with no attempt counter.  Returns the number of
attempts performed when the call completes within the trace; none means
the trace was exhausted with the call still retrying. -/
def handleIdempotencyAttempts : List ReserveObs → Option Nat
  | [] => none
  | .found :: _ => some 1
  | .created :: _ => some 1
  | .race :: rest => (handleIdempotencyAttempts rest).map (· + 1)

/-- Mutable state of the ingestion loop of OrderIngestView.post
(views.py lines 38-41, 66, plus the committed order rows of the
core_order table). -/
structure LoopState where
  received : Nat := 0
  inserted : Nat := 0
  failed : Nat := 0
  errors : List ErrEntry := []
  batch : List JValue := []
  committed : List JValue := []

/-- Transactional flush of a full batch (views.py lines 110-128): the
batch commits atomically and counts as inserted, or the whole batch
fails, is counted in rows_failed, and a batch error naming the starting
row rows_received - len(order_batch_data) is appended; either way the
batch buffer is reset. -/
def flushBatch (flushOk : List JValue → Bool) (st : LoopState) : LoopState :=
  if flushOk st.batch then
    { st with inserted := st.inserted + st.batch.length,
              committed := st.committed ++ st.batch,
              batch := [] }
  else
    { st with failed := st.failed + st.batch.length,
              errors := st.errors ++ [.batchError (st.received - st.batch.length)],
              batch := [] }

/-- One iteration of the for-loop of views.py lines 79-133: count the
row as received; if the serializer accepts it, append it to the batch
and flush when the batch reaches batch_size; otherwise count it failed
and append a row error carrying the current 1-based row number. -/
def processRow (valid : JValue → Bool) (flushOk : List JValue → Bool)
    (batch_size : Nat) (st : LoopState) (row : JValue) : LoopState :=
  let st := { st with received := st.received + 1 }
  if valid row then
    let st := { st with batch := st.batch ++ [row] }
    if batch_size ≤ st.batch.length then flushBatch flushOk st else st
  else
    { st with failed := st.failed + 1,
              errors := st.errors ++ [.rowError st.received] }

/-- The full streaming loop over the input records (views.py
lines 79-133). -/
def runStream (valid : JValue → Bool) (flushOk : List JValue → Bool)
    (batch_size : Nat) (rows : List JValue) : LoopState :=
  rows.foldl (processRow valid flushOk batch_size) {}

/-- Unconditional flush of the trailing partial batch (views.py
lines 136-145); its error entry carries no row information. -/
def flushFinal (flushOk : List JValue → Bool) (st : LoopState) : LoopState :=
  if st.batch.isEmpty then st
  else if flushOk st.batch then
    { st with inserted := st.inserted + st.batch.length,
              committed := st.committed ++ st.batch,
              batch := [] }
  else
    { st with failed := st.failed + st.batch.length,
              errors := st.errors ++ [.finalBatchError],
              batch := [] }

/-- The whole record-processing pipeline: stream every row, then flush
the trailing batch (views.py lines 79-145). -/
def runPipeline (valid : JValue → Bool) (flushOk : List JValue → Bool)
    (batch_size : Nat) (rows : List JValue) : LoopState :=
  flushFinal flushOk (runStream valid flushOk batch_size rows)

/-- Lookup of a field in a parsed JSON object (dict.get). -/
def lookupField (fs : List (String × JValue)) (k : String) : Option JValue :=
  (fs.find? (fun p => p.1 == k)).map (·.2)

/-- Extraction of the record stream from the request body (views.py
lines 56-59): a top-level list is the stream itself, otherwise the
value of the orders key; a missing or non-list orders value yields the
empty stream. -/
def dataStream : JValue → List JValue
  | .arr xs => xs
  | .obj fs =>
    match lookupField fs "orders" with
    | some (.arr xs) => xs
    | _ => []
  | _ => []

/-- The 400 body returned for an empty record stream (views.py
line 62). -/
def noDataDoc : Doc :=
  { error := some "No order data found in payload." }

/-- Assembly of response_summary (views.py lines 148-156); debug models
settings.DEBUG and elapsed the measured wall-clock duration. -/
def buildSummary (debug : Bool) (elapsed : Nat) (idempotency_key : Option String)
    (st : LoopState) : Doc :=
  { rows_received := some st.received,
    rows_inserted := some st.inserted,
    rows_failed := some st.failed,
    processing_time := some elapsed,
    idempotency_key := some idempotency_key,
    errors := some (if debug ∨ 0 < st.failed then st.errors else []) }

/-- HTTP response: status code plus body document. -/
structure HttpResponse where
  code : Nat
  body : Doc
deriving DecidableEq, Repr

/-- Shared mutable world of the pipeline: the idempotency ledger plus
the committed order rows. -/
structure SysState where
  ledger : Ledger
  orders : List JValue

/-- Steps 2-5 of OrderIngestView.post (views.py lines 54-163), after the
idempotency outcome has been resolved: extract the stream, reject an
empty stream with 400, otherwise run the pipeline, build the summary,
finalize the key when one was reserved, and answer 200 exactly when at
least one row was inserted. -/
def postBody (valid : JValue → Bool) (flushOk : List JValue → Bool)
    (debug : Bool) (elapsed : Nat) (batch_size : Nat)
    (idempotency_key : Option String) (key_instance : Option String)
    (data : JValue) (led : Ledger) (orders : List JValue) :
    HttpResponse × SysState :=
  let rows := dataStream data
  if rows.isEmpty then
    (⟨400, noDataDoc⟩, ⟨led, orders⟩)
  else
    let ls := runPipeline valid flushOk batch_size rows
    let summary := buildSummary debug elapsed idempotency_key ls
    let fin := finalize_idempotency key_instance summary led
    (⟨if 0 < ls.inserted then 200 else 400, fin.1⟩, ⟨fin.2, orders ++ ls.committed⟩)

/-- Embedding of OrderIngestView.post (views.py lines 33-163) with the
batch size as a parameter: resolve idempotency first (HIT returns the
stored metadata with 200, CONFLICT the error body with 409), then run
the body with the reserved key instance (none when no key was given). -/
def postWithBatchSize (digest : String → String) (valid : JValue → Bool)
    (flushOk : List JValue → Bool) (debug : Bool) (elapsed : Nat)
    (batch_size : Nat) (idempotency_key : Option String) (data : JValue)
    (st : SysState) : HttpResponse × SysState :=
  match handle_idempotency digest idempotency_key data st.ledger with
  | (.hit md, led) => (⟨200, md⟩, ⟨led, st.orders⟩)
  | (.conflict body, led) => (⟨409, body⟩, ⟨led, st.orders⟩)
  | (.noKey, led) =>
    postBody valid flushOk debug elapsed batch_size idempotency_key none data led st.orders
  | (.miss k, led) =>
    postBody valid flushOk debug elapsed batch_size idempotency_key (some k) data led st.orders

/-- OrderIngestView.post with the source's hard-coded batch size of 5000
(views.py line 65). -/
def post (digest : String → String) (valid : JValue → Bool)
    (flushOk : List JValue → Bool) (debug : Bool) (elapsed : Nat)
    (idempotency_key : Option String) (data : JValue) (st : SysState) :
    HttpResponse × SysState :=
  postWithBatchSize digest valid flushOk debug elapsed 5000 idempotency_key data st

/-! Accounting invariant of the streaming loop: every received row is
accounted for as inserted, failed, or still pending in the batch
buffer. -/

lemma processRow_counts (valid : JValue → Bool) (flushOk : List JValue → Bool)
    (bsz : Nat) (st : LoopState) (row : JValue)
    (h : st.received = st.inserted + st.failed + st.batch.length) :
    (processRow valid flushOk bsz st row).received
      = (processRow valid flushOk bsz st row).inserted
        + (processRow valid flushOk bsz st row).failed
        + (processRow valid flushOk bsz st row).batch.length := by
  unfold processRow flushBatch
  dsimp only
  split
  · split
    · split
      · simp only [List.length_append, List.length_cons, List.length_nil]
        omega
      · simp only [List.length_append, List.length_cons, List.length_nil]
        omega
    · simp only [List.length_append, List.length_cons, List.length_nil]
      omega
  · dsimp only
    omega

lemma runStream_counts_aux (valid : JValue → Bool) (flushOk : List JValue → Bool)
    (bsz : Nat) :
    ∀ (rows : List JValue) (st : LoopState),
      st.received = st.inserted + st.failed + st.batch.length →
      (rows.foldl (processRow valid flushOk bsz) st).received
        = (rows.foldl (processRow valid flushOk bsz) st).inserted
          + (rows.foldl (processRow valid flushOk bsz) st).failed
          + (rows.foldl (processRow valid flushOk bsz) st).batch.length
  | [], _, h => h
  | row :: rest, st, h =>
    runStream_counts_aux valid flushOk bsz rest _
      (processRow_counts valid flushOk bsz st row h)

lemma flushFinal_counts (flushOk : List JValue → Bool) (st : LoopState)
    (h : st.received = st.inserted + st.failed + st.batch.length) :
    (flushFinal flushOk st).received
      = (flushFinal flushOk st).inserted + (flushFinal flushOk st).failed := by
  unfold flushFinal
  split
  · next hemp =>
    have : st.batch = [] := by
      cases hb : st.batch with
      | nil => rfl
      | cons x xs => rw [hb] at hemp; simp [List.isEmpty] at hemp
    rw [this] at h
    simpa using h
  · split
    · dsimp only; omega
    · dsimp only; omega

/-- C5: for every input record sequence and every behaviour of the
validation serializer and of the storage layer, the final state of the
ingestion pipeline satisfies rows_received = rows_inserted +
rows_failed: each received row is counted exactly once, as inserted or
as failed (by validation or by membership of a failed batch), including
the records of the trailing partial batch.  These are exactly the
counts placed verbatim into the response summary by buildSummary. -/
theorem rows_accounting (valid : JValue → Bool) (flushOk : List JValue → Bool)
    (bsz : Nat) (rows : List JValue) :
    (runPipeline valid flushOk bsz rows).received
      = (runPipeline valid flushOk bsz rows).inserted
        + (runPipeline valid flushOk bsz rows).failed := by
  unfold runPipeline runStream
  exact flushFinal_counts flushOk _ (runStream_counts_aux valid flushOk bsz rows {} rfl)

/-! The reservation retry path (C4). -/

/-- C4 counterexample: the claim says the reserve call is retried only
up to a fixed bound of five attempts, after which a conflict-class
error is surfaced.  On a trace of five consecutive unique-constraint
races followed by a successful create, handle_idempotency instead
performs a sixth attempt and completes it as an ordinary reservation:
no error is ever surfaced after five attempts. -/
theorem reserve_retry_exceeds_claimed_bound :
    handleIdempotencyAttempts (List.replicate 5 .race ++ [.created]) = some 6 := by
  rfl

/-- C4 amended: the retry of handle_idempotency on unique-constraint
contention is an unbounded recursion with no attempt counter: for every
n, a trace of n races followed by a successful create makes the call
re-enter itself n times (n + 1 attempts in total, never surfacing an
error), and a trace of n unbroken races leaves the call still retrying
after all n attempts.  The call terminates only when some attempt's
lookup or create succeeds, not because of any bound. -/
theorem reserve_retry_unbounded (n : Nat) :
    handleIdempotencyAttempts (List.replicate n .race ++ [.created]) = some (n + 1)
      ∧ handleIdempotencyAttempts (List.replicate n .race) = none := by
  induction n with
  | zero => exact ⟨rfl, rfl⟩
  | succ m ih =>
    refine ⟨?_, ?_⟩
    · simp [List.replicate_succ, handleIdempotencyAttempts, ih.1]
    · simp [List.replicate_succ, handleIdempotencyAttempts, ih.2]

/-! Concrete two-call runs exhibiting the finalize/replay defects
(C1, C2, C7).  The digest parameter is instantiated with the identity
function; any digest gives the same control flow. -/

/-- C1: a first successful ingest under key "k" answers 200, but the
identical second call answers 409 CONFLICT instead of replaying the
stored summary on the HIT path: finalize_idempotency replaced the
record's metadata with the summary, which carries no request_hash, so
the hash comparison of handle_idempotency can never match again. -/
theorem second_identical_call_conflicts :
    (postWithBatchSize (fun s => s) (fun _ => true) (fun _ => true) false 0 2
        (some "k") (.obj [("orders", .arr [.num 1])]) ⟨[], []⟩).1.code = 200
    ∧ (postWithBatchSize (fun s => s) (fun _ => true) (fun _ => true) false 0 2
        (some "k") (.obj [("orders", .arr [.num 1])])
        (postWithBatchSize (fun s => s) (fun _ => true) (fun _ => true) false 0 2
          (some "k") (.obj [("orders", .arr [.num 1])]) ⟨[], []⟩).2).1
      = ⟨409, conflictDoc⟩ := by
  exact ⟨rfl, rfl⟩

/-- C2: the stored fingerprint does not survive finalization.  After
reservation the record for "k" holds request_hash = hash of the
payload, but finalize_idempotency overwrites the whole metadata with
the response summary, leaving no request_hash at all. -/
theorem finalize_changes_stored_fingerprint :
    ((ledgerGet (handle_idempotency (fun s => s) (some "k")
          (.obj [("orders", .arr [.num 1])]) []).2 "k").map (·.request_hash)
        = some (some (dumps (.obj [("orders", .arr [.num 1])]))))
    ∧ ((ledgerGet (postWithBatchSize (fun s => s) (fun _ => true) (fun _ => true)
          false 0 2 (some "k") (.obj [("orders", .arr [.num 1])])
          ⟨[], []⟩).2.ledger "k").map (·.request_hash)
        = some none) := by
  exact ⟨rfl, rfl⟩

/-- C7: an empty payload under a fresh key is rejected with 400 but the
reservation is never finalized: the record stays PENDING with no
summary, and a retry with the same key and the same empty payload gets
a 200 HIT whose body is the raw PENDING marker, not a summary
reflecting zero rows. -/
theorem empty_payload_leaves_reservation_pending :
    (postWithBatchSize (fun s => s) (fun _ => true) (fun _ => true) false 0 2
        (some "k") (.obj [("orders", .arr [])]) ⟨[], []⟩).1.code = 400
    ∧ ((ledgerGet (postWithBatchSize (fun s => s) (fun _ => true) (fun _ => true)
          false 0 2 (some "k") (.obj [("orders", .arr [])])
          ⟨[], []⟩).2.ledger "k").map (·.status) = some (some "PENDING"))
    ∧ ((ledgerGet (postWithBatchSize (fun s => s) (fun _ => true) (fun _ => true)
          false 0 2 (some "k") (.obj [("orders", .arr [])])
          ⟨[], []⟩).2.ledger "k").map (·.rows_received) = some none)
    ∧ (postWithBatchSize (fun s => s) (fun _ => true) (fun _ => true) false 0 2
        (some "k") (.obj [("orders", .arr [])])
        (postWithBatchSize (fun s => s) (fun _ => true) (fun _ => true) false 0 2
          (some "k") (.obj [("orders", .arr [])]) ⟨[], []⟩).2).1
      = ⟨200, { status := some "PENDING",
                request_hash := some (dumps (.obj [("orders", .arr [])])) }⟩ := by
  exact ⟨rfl, rfl, rfl, rfl⟩

/-! Stability of the request fingerprint (C9): payloads of equal
logical content that differ only in the ordering of object fields
serialise, and therefore hash, identically. -/

/-- Strict version of the key ordering, used to show that sorting a
field list with distinct keys is canonical. -/
def keyLT (a b : String × JValue) : Prop := a.1 < b.1

instance : IsAntisymm (String × JValue) keyLT :=
  ⟨fun _ _ h h' => absurd (lt_trans h h') (lt_irrefl _)⟩

lemma canonFields_eq_map (fs : List (String × JValue)) :
    canonFields fs = fs.map (fun p => (p.1, canon p.2)) := by
  induction fs with
  | nil => rfl
  | cons p rest ih => cases p; simp [canonFields, ih]

lemma fieldKeys_canonFields (fs : List (String × JValue)) :
    fieldKeys (canonFields fs) = fieldKeys fs := by
  induction fs with
  | nil => rfl
  | cons p rest ih =>
    cases p with
    | mk k v => simpa [canonFields, fieldKeys] using ih

lemma nodup_keys_pairwise {l : List (String × JValue)}
    (h : (fieldKeys l).Nodup) : l.Pairwise (fun a b => a.1 ≠ b.1) := by
  unfold fieldKeys at h
  exact (List.pairwise_map).mp h

lemma sortFields_pairwise_lt {l : List (String × JValue)}
    (h : (fieldKeys l).Nodup) : (sortFields l).Pairwise keyLT := by
  have hsorted : (sortFields l).Pairwise keyLE :=
    List.sorted_insertionSort keyLE l
  have hperm : List.Perm (sortFields l) l := List.perm_insertionSort keyLE l
  have hnd : (fieldKeys (sortFields l)).Nodup := by
    have hp : List.Perm (fieldKeys (sortFields l)) (fieldKeys l) :=
      hperm.map Prod.fst
    exact (hp.nodup_iff).mpr h
  have hne : (sortFields l).Pairwise (fun a b => a.1 ≠ b.1) :=
    nodup_keys_pairwise hnd
  exact (hsorted.and hne).imp (fun hab => lt_of_le_of_ne hab.1 hab.2)

lemma sortFields_eq_of_perm {l₁ l₂ : List (String × JValue)}
    (hp : List.Perm l₁ l₂) (hnd : (fieldKeys l₁).Nodup) :
    sortFields l₁ = sortFields l₂ := by
  have hnd₂ : (fieldKeys l₂).Nodup := ((hp.map Prod.fst).nodup_iff).mp hnd
  have hchain : List.Perm (sortFields l₁) (sortFields l₂) :=
    ((List.perm_insertionSort keyLE l₁).trans hp).trans
      (List.perm_insertionSort keyLE l₂).symm
  exact List.eq_of_perm_of_sorted hchain
    (sortFields_pairwise_lt hnd) (sortFields_pairwise_lt hnd₂)

mutual

/-- Equality of logical content: two values are equivalent when they
agree exactly, except that corresponding objects may list their fields
(which have distinct keys, as Python dicts do) in different orders. -/
inductive JEquiv : JValue → JValue → Prop where
  | null : JEquiv .null .null
  | bool (b : Bool) : JEquiv (.bool b) (.bool b)
  | num (n : Int) : JEquiv (.num n) (.num n)
  | str (s : String) : JEquiv (.str s) (.str s)
  | arr {xs ys : List JValue} : JEquivList xs ys → JEquiv (.arr xs) (.arr ys)
  | obj {fs gs hs : List (String × JValue)} :
      (fieldKeys fs).Nodup → JEquivFields fs gs → List.Perm gs hs →
      JEquiv (.obj fs) (.obj hs)

/-- Pointwise equivalence of array elements. -/
inductive JEquivList : List JValue → List JValue → Prop where
  | nil : JEquivList [] []
  | cons {x y : JValue} {xs ys : List JValue} :
      JEquiv x y → JEquivList xs ys → JEquivList (x :: xs) (y :: ys)

/-- Pointwise equivalence of object fields with identical keys. -/
inductive JEquivFields :
    List (String × JValue) → List (String × JValue) → Prop where
  | nil : JEquivFields [] []
  | cons {k : String} {v w : JValue} {fs gs : List (String × JValue)} :
      JEquiv v w → JEquivFields fs gs →
      JEquivFields ((k, v) :: fs) ((k, w) :: gs)

end

lemma canon_obj_eq {fs gs hs : List (String × JValue)}
    (hnd : (fieldKeys fs).Nodup)
    (e1 : canonFields fs = canonFields gs) (hperm : List.Perm gs hs) :
    canon (.obj fs) = canon (.obj hs) := by
  simp only [canon]
  refine congrArg JValue.obj ?_
  have p2 : List.Perm (canonFields gs) (canonFields hs) := by
    rw [canonFields_eq_map, canonFields_eq_map]
    exact hperm.map _
  have hnd' : (fieldKeys (canonFields fs)).Nodup := by
    rw [fieldKeys_canonFields]; exact hnd
  exact sortFields_eq_of_perm (e1 ▸ p2) hnd'

lemma canon_cons_eq {x y : JValue} {xs ys : List JValue}
    (h1 : canon x = canon y) (h2 : canonList xs = canonList ys) :
    canonList (x :: xs) = canonList (y :: ys) := by
  simp only [canonList]
  rw [h1, h2]

lemma canon_fields_cons_eq {k : String} {v w : JValue}
    {fs gs : List (String × JValue)}
    (h1 : canon v = canon w) (h2 : canonFields fs = canonFields gs) :
    canonFields ((k, v) :: fs) = canonFields ((k, w) :: gs) := by
  simp only [canonFields]
  rw [h1, h2]

mutual

theorem jequiv_canon : ∀ {p q : JValue}, JEquiv p q → canon p = canon q
  | _, _, .null => rfl
  | _, _, .bool _ => rfl
  | _, _, .num _ => rfl
  | _, _, .str _ => rfl
  | _, _, .arr h => congrArg JValue.arr (jequivList_canon h)
  | _, _, .obj hnd hfg hperm =>
    canon_obj_eq hnd (jequivFields_canon hfg) hperm

theorem jequivList_canon : ∀ {xs ys : List JValue},
    JEquivList xs ys → canonList xs = canonList ys
  | _, _, .nil => rfl
  | _, _, .cons h hs => canon_cons_eq (jequiv_canon h) (jequivList_canon hs)

theorem jequivFields_canon : ∀ {fs gs : List (String × JValue)},
    JEquivFields fs gs → canonFields fs = canonFields gs
  | _, _, .nil => rfl
  | _, _, .cons h hs =>
    canon_fields_cons_eq (jequiv_canon h) (jequivFields_canon hs)

end

/-- C9: generate_request_hash is deterministic and stable.  For any
digest function and any two payloads of equal logical content --
including payloads that differ only in the ordering of object fields in
the source representation -- the serialisation with sorted keys is
identical, so the hash is identical. -/
theorem request_hash_stable (digest : String → String) {p q : JValue}
    (h : JEquiv p q) :
    generate_request_hash digest p = generate_request_hash digest q := by
  unfold generate_request_hash dumps
  rw [jequiv_canon h]

/-- Witness for C9 at a concrete input: the same two fields listed in
the two possible orders hash identically. -/
theorem request_hash_stable_witness :
    generate_request_hash (fun s => s) (.obj [("b", .num 1), ("a", .null)])
      = generate_request_hash (fun s => s) (.obj [("a", .null), ("b", .num 1)]) :=
  request_hash_stable (fun s => s)
    (JEquiv.obj (by decide)
      (JEquivFields.cons (JEquiv.num 1)
        (JEquivFields.cons JEquiv.null JEquivFields.nil))
      (List.Perm.swap ("a", JValue.null) ("b", JValue.num 1) []))


/-! Ledger lemmas used for the sequential two-call properties. -/

lemma ledgerGet_cons_self (led : Ledger) (k : String) (d : Doc) :
    ledgerGet ((k, d) :: led) k = some d := by
  simp [ledgerGet, List.find?_cons_of_pos]

lemma ledgerGet_update (led : Ledger) (k : String) (d : Doc) :
    ledgerGet (updateLedger led k d) k = (ledgerGet led k).map (fun _ => d) := by
  induction led with
  | nil => rfl
  | cons p rest ih =>
    cases p with
    | mk k0 d0 =>
      by_cases hk : k0 = k
      · subst hk
        simp [updateLedger, ledgerGet, List.find?_cons_of_pos]
      · simp only [updateLedger, List.map_cons, if_neg hk]
        simp only [ledgerGet] at ih ⊢
        rw [List.find?_cons_of_neg _ (by simp [hk]),
          List.find?_cons_of_neg _ (by simp [hk])]
        exact ih

/-- Shape of the record stored under a fresh key after one full call of
the ingest endpoint: the record exists, and its stored fingerprint is
either the reservation's hash (when the call exited before
finalization) or gone entirely (after finalization replaced the
metadata with the summary). -/
lemma post_fresh_ledger (digest : String → String) (v : JValue → Bool)
    (f : List JValue → Bool)
    (d : Bool) (e b : Nat) (k : String) (data : JValue) (st : SysState)
    (hk : k ≠ "") (hfresh : ledgerGet st.ledger k = none) :
    ∃ md : Doc,
      ledgerGet (postWithBatchSize digest v f d e b (some k) data st).2.ledger k
          = some md
        ∧ (md.request_hash = some (generate_request_hash digest data)
            ∨ md.request_hash = none) := by
  simp only [postWithBatchSize, handle_idempotency, hfresh, if_neg hk]
  unfold postBody
  by_cases hrows : (dataStream data).isEmpty
  · rw [if_pos hrows]
    exact ⟨pendingDoc digest data, ledgerGet_cons_self _ _ _, Or.inl rfl⟩
  · rw [if_neg hrows]
    refine ⟨{ buildSummary d e (some k) (runPipeline v f b (dataStream data)) with
                status := some "COMPLETED" }, ?_, Or.inr rfl⟩
    simp only [finalize_idempotency]
    rw [ledgerGet_update, ledgerGet_cons_self]
    rfl

/-- C3: for a fixed non-empty key and two payloads with different
fingerprints, the second sequential ingest call answers 409 with the
conflict error body and performs zero additional writes: the system
state after the second call is exactly the state after the first. -/
theorem conflicting_reuse_rejected (digest : String → String)
    (v1 v2 : JValue → Bool) (f1 f2 : List JValue → Bool) (d1 d2 : Bool)
    (e1 e2 b1 b2 : Nat) (k : String) (P1 P2 : JValue) (st : SysState)
    (hk : k ≠ "") (hfresh : ledgerGet st.ledger k = none)
    (hfp : generate_request_hash digest P1 ≠ generate_request_hash digest P2) :
    postWithBatchSize digest v2 f2 d2 e2 b2 (some k) P2
        (postWithBatchSize digest v1 f1 d1 e1 b1 (some k) P1 st).2
      = (⟨409, conflictDoc⟩,
         (postWithBatchSize digest v1 f1 d1 e1 b1 (some k) P1 st).2) := by
  obtain ⟨md, hmd, hdisj⟩ :=
    post_fresh_ledger digest v1 f1 d1 e1 b1 k P1 st hk hfresh
  have hne : some (generate_request_hash digest P2) ≠ md.request_hash := by
    rcases hdisj with h | h
    · rw [h]
      intro hcontra
      exact hfp (Option.some.inj hcontra).symm
    · rw [h]
      exact Option.some_ne_none _
  set st1 := (postWithBatchSize digest v1 f1 d1 e1 b1 (some k) P1 st).2 with hst1
  simp only [postWithBatchSize, handle_idempotency, hmd, if_neg hk, if_pos hne]

/-- Witness for C3 at a concrete input: key "k", payload with one order
record versus a payload with a different order record. -/
theorem conflicting_reuse_rejected_witness :
    postWithBatchSize (fun s => s) (fun _ => true) (fun _ => true) false 0 2
        (some "k") (.obj [("orders", .arr [.num 2])])
        ((postWithBatchSize (fun s => s) (fun _ => true) (fun _ => true) false 0 2
          (some "k") (.obj [("orders", .arr [.num 1])]) ⟨[], []⟩).2)
      = (⟨409, conflictDoc⟩,
         (postWithBatchSize (fun s => s) (fun _ => true) (fun _ => true) false 0 2
          (some "k") (.obj [("orders", .arr [.num 1])]) ⟨[], []⟩).2) :=
  conflicting_reuse_rejected (fun s => s) (fun _ => true) (fun _ => true)
    (fun _ => true) (fun _ => true) false false 0 0 2 2 "k"
    (.obj [("orders", .arr [.num 1])]) (.obj [("orders", .arr [.num 2])])
    ⟨[], []⟩ (by decide) rfl (by decide)

/-- Reduction of postBody on a non-empty record stream to its pipeline
run, summary and finalization. -/
lemma postBody_main (v : JValue → Bool) (f : List JValue → Bool) (d : Bool)
    (e b : Nat) (ik ki : Option String) (data : JValue) (led : Ledger)
    (orders : List JValue) (hrows : dataStream data ≠ []) :
    postBody v f d e b ik ki data led orders
      = (⟨if 0 < (runPipeline v f b (dataStream data)).inserted then 200 else 400,
          (finalize_idempotency ki
            (buildSummary d e ik (runPipeline v f b (dataStream data))) led).1⟩,
         ⟨(finalize_idempotency ki
            (buildSummary d e ik (runPipeline v f b (dataStream data))) led).2,
          orders ++ (runPipeline v f b (dataStream data)).committed⟩) := by
  unfold postBody
  rw [if_neg (by simpa [List.isEmpty_iff] using hrows)]

/-- Status field of a finalized body. -/
lemma finalize_status (ki : Option String) (s : Doc) (led : Ledger) :
    (finalize_idempotency ki s led).1.status
      = (match ki with | none => s.status | some _ => some "COMPLETED") := by
  cases ki <;> rfl

/-- Row counters pass through finalization untouched. -/
lemma finalize_rows_inserted (ki : Option String) (s : Doc) (led : Ledger) :
    (finalize_idempotency ki s led).1.rows_inserted = s.rows_inserted := by
  cases ki <;> rfl

/-- C8: for a completed run (no replay, no conflict: the key is absent,
empty, or fresh, and the record stream is non-empty), the response
carries the pipeline's inserted count and is a 200 success exactly when
at least one row was inserted; it is a 400 failure exactly when zero
rows were inserted, even though such a run is structurally complete. -/
theorem success_iff_inserted (digest : String → String) (v : JValue → Bool)
    (f : List JValue → Bool) (d : Bool) (e b : Nat) (key : Option String)
    (data : JValue) (st : SysState)
    (hkey : ∀ k, key = some k → k = "" ∨ ledgerGet st.ledger k = none)
    (hrows : dataStream data ≠ []) :
    (postWithBatchSize digest v f d e b key data st).1.body.rows_inserted
        = some (runPipeline v f b (dataStream data)).inserted
      ∧ ((postWithBatchSize digest v f d e b key data st).1.code = 200
          ↔ 0 < (runPipeline v f b (dataStream data)).inserted)
      ∧ ((postWithBatchSize digest v f d e b key data st).1.code = 400
          ↔ (runPipeline v f b (dataStream data)).inserted = 0) := by
  have hred : ∃ ki : Option String,
      postWithBatchSize digest v f d e b key data st
        = postBody v f d e b key ki data
            ((handle_idempotency digest key data st.ledger).2) st.orders := by
    match key with
    | none => exact ⟨none, rfl⟩
    | some k =>
      rcases hkey k rfl with hk | hk
      · subst hk
        exact ⟨none, rfl⟩
      · by_cases hke : k = ""
        · subst hke
          exact ⟨none, rfl⟩
        · refine ⟨some k, ?_⟩
          simp only [postWithBatchSize, handle_idempotency, if_neg hke, hk]
  obtain ⟨ki, hred⟩ := hred
  rw [hred, postBody_main v f d e b key ki data _ st.orders hrows]
  refine ⟨?_, ?_, ?_⟩
  · rw [finalize_rows_inserted]
    rfl
  · by_cases h : 0 < (runPipeline v f b (dataStream data)).inserted <;>
      simp [h]
  · by_cases h : 0 < (runPipeline v f b (dataStream data)).inserted <;>
      simp [h] <;> omega

/-- Witness for C8 at a concrete input: a run whose only row fails
validation inserts zero rows and is reported as a 400 failure even
though it completed. -/
theorem success_iff_inserted_witness :
    (postWithBatchSize (fun s => s) (fun _ => false) (fun _ => true) false 0 2
        (some "k") (.obj [("orders", .arr [.num 1])]) ⟨[], []⟩).1.body.rows_inserted
        = some (runPipeline (fun _ => false) (fun _ => true) 2
            (dataStream (.obj [("orders", .arr [.num 1])]))).inserted
      ∧ ((postWithBatchSize (fun s => s) (fun _ => false) (fun _ => true) false 0 2
          (some "k") (.obj [("orders", .arr [.num 1])]) ⟨[], []⟩).1.code = 200
          ↔ 0 < (runPipeline (fun _ => false) (fun _ => true) 2
              (dataStream (.obj [("orders", .arr [.num 1])]))).inserted)
      ∧ ((postWithBatchSize (fun s => s) (fun _ => false) (fun _ => true) false 0 2
          (some "k") (.obj [("orders", .arr [.num 1])]) ⟨[], []⟩).1.code = 400
          ↔ (runPipeline (fun _ => false) (fun _ => true) 2
              (dataStream (.obj [("orders", .arr [.num 1])]))).inserted = 0) :=
  success_iff_inserted (fun s => s) (fun _ => false) (fun _ => true) false 0 2
    (some "k") (.obj [("orders", .arr [.num 1])]) ⟨[], []⟩
    (fun _ _ => Or.inr rfl) (fun h => nomatch h)

/-- C10: when the run reaches finalization, finalize_idempotency
mutates the summary dict in place, so with a reserved key the returned
body itself carries status COMPLETED, while a keyless request returns a
summary with no status field at all. -/
theorem completed_status_marker (digest : String → String) (v : JValue → Bool)
    (f : List JValue → Bool) (d : Bool) (e b : Nat) (data : JValue)
    (st : SysState) (hrows : dataStream data ≠ []) :
    (∀ k : String, k ≠ "" → ledgerGet st.ledger k = none →
        (postWithBatchSize digest v f d e b (some k) data st).1.body.status
          = some "COMPLETED")
      ∧ (postWithBatchSize digest v f d e b none data st).1.body.status
          = none := by
  constructor
  · intro k hk hfresh
    have hred : postWithBatchSize digest v f d e b (some k) data st
        = postBody v f d e b (some k) (some k) data
            ((k, pendingDoc digest data) :: st.ledger) st.orders := by
      simp only [postWithBatchSize, handle_idempotency, if_neg hk, hfresh]
    rw [hred, postBody_main v f d e b (some k) (some k) data _ st.orders hrows]
    rw [finalize_status]
  · have hred : postWithBatchSize digest v f d e b none data st
        = postBody v f d e b none none data st.ledger st.orders := rfl
    rw [hred, postBody_main v f d e b none none data _ st.orders hrows]
    rw [finalize_status]
    rfl

/-- Witness for C10 at a concrete input: one valid order record; the
keyed call's body carries status COMPLETED, the keyless call's body has
no status field. -/
theorem completed_status_marker_witness :
    (∀ k : String, k ≠ "" →
        ledgerGet ([] : Ledger) k = none →
        (postWithBatchSize (fun s => s) (fun _ => true) (fun _ => true) false 0 2
          (some k) (.obj [("orders", .arr [.num 1])]) ⟨[], []⟩).1.body.status
          = some "COMPLETED")
      ∧ (postWithBatchSize (fun s => s) (fun _ => true) (fun _ => true) false 0 2
          none (.obj [("orders", .arr [.num 1])]) ⟨[], []⟩).1.body.status
          = none :=
  completed_status_marker (fun s => s) (fun _ => true) (fun _ => true) false 0 2
    (.obj [("orders", .arr [.num 1])]) ⟨[], []⟩ (fun h => nomatch h)

/-! Batch isolation (C6): the loop splits the valid rows into
consecutive batches of batch_size plus a trailing partial batch, and
each batch's fate depends only on its own flush outcome. -/

/-- Consecutive groups of bsz elements (with a final shorter group):
the batches the loop forms from the stream of valid rows. -/
def chunks : Nat → List JValue → List (List JValue)
  | _, [] => []
  | 0, _ :: _ => []
  | bsz + 1, x :: xs =>
    (x :: xs).take (bsz + 1) :: chunks (bsz + 1) ((x :: xs).drop (bsz + 1))
termination_by _ l => l.length
decreasing_by
  simp only [List.length_drop]
  simp
  omega

lemma chunks_nil (bsz : Nat) : chunks bsz [] = [] := by
  cases bsz <;> simp [chunks]

lemma chunks_of_small {bsz : Nat} {l : List JValue} (h0 : l ≠ [])
    (hle : l.length ≤ bsz) (hb : 0 < bsz) : chunks bsz l = [l] := by
  rcases l with _ | ⟨x, xs⟩
  · exact absurd rfl h0
  rcases bsz with _ | n
  · omega
  simp only [chunks]
  rw [List.take_of_length_le hle, List.drop_of_length_le hle]
  simp [chunks]

lemma chunks_cons_full {bsz : Nat} {b l : List JValue} (hb : 0 < bsz)
    (hlen : b.length = bsz) : chunks bsz (b ++ l) = b :: chunks bsz l := by
  rcases bsz with _ | n
  · omega
  rcases b with _ | ⟨y, ys⟩
  · simp at hlen
  rw [List.cons_append]
  simp only [chunks]
  rw [← List.cons_append, List.take_left' hlen, List.drop_left' hlen]

/-- Entries of errors_metadata produced by a batch-level database
failure (as opposed to a per-row validation failure). -/
def isBatchErr : ErrEntry → Bool
  | .rowError _ => false
  | .batchError _ => true
  | .finalBatchError => true

/-- Chunk decomposition of a full pipeline run, generalised over the
loop state: starting from a partially filled batch, the committed rows,
the inserted/failed counters and the batch-error entries decompose over
the batches (chunks) of the incoming valid rows, each batch contributing
according to its own flush outcome alone. -/
lemma run_decomposition (valid : JValue → Bool) (flushOk : List JValue → Bool)
    (bsz : Nat) (hb : 0 < bsz) (rows : List JValue) :
    ∀ (st : LoopState), st.batch.length < bsz →
      ((flushFinal flushOk (rows.foldl (processRow valid flushOk bsz) st)).committed
          = st.committed
            ++ ((chunks bsz (st.batch ++ rows.filter valid)).filter flushOk).flatten)
      ∧ ((flushFinal flushOk (rows.foldl (processRow valid flushOk bsz) st)).inserted
          = st.inserted
            + (((chunks bsz (st.batch ++ rows.filter valid)).filter flushOk).map
                List.length).sum)
      ∧ ((flushFinal flushOk (rows.foldl (processRow valid flushOk bsz) st)).failed
          = st.failed + (rows.filter (fun r => !(valid r))).length
            + (((chunks bsz (st.batch ++ rows.filter valid)).filter
                (fun c => !(flushOk c))).map List.length).sum)
      ∧ (((flushFinal flushOk
            (rows.foldl (processRow valid flushOk bsz) st)).errors.filter
              isBatchErr).length
          = (st.errors.filter isBatchErr).length
            + ((chunks bsz (st.batch ++ rows.filter valid)).filter
                (fun c => !(flushOk c))).length) := by
  induction rows with
  | nil =>
    intro st hlt
    simp only [List.foldl_nil, List.filter_nil, List.append_nil]
    by_cases hbe : st.batch = []
    · rw [hbe, chunks_nil]
      unfold flushFinal
      rw [if_pos (by rw [hbe]; rfl)]
      simp
    · rw [chunks_of_small hbe (le_of_lt hlt) hb]
      unfold flushFinal
      rw [if_neg (by simp [List.isEmpty_iff, hbe])]
      by_cases hf : flushOk st.batch
      · rw [if_pos hf]
        refine ⟨?_, ?_, ?_, ?_⟩ <;> simp [List.filter_cons, hf]
      · rw [if_neg hf]
        refine ⟨?_, ?_, ?_, ?_⟩ <;>
          simp [List.filter_cons, List.filter_append, hf, isBatchErr]
  | cons row rest ih =>
    intro st hlt
    simp only [List.foldl_cons, List.filter_cons]
    by_cases hv : valid row
    · simp only [hv, if_true]
      by_cases hflush : bsz ≤ st.batch.length + 1
      · have hblen : (st.batch ++ [row]).length = bsz := by
          simp only [List.length_append, List.length_cons, List.length_nil]
          omega
        have hstep : processRow valid flushOk bsz st row
            = flushBatch flushOk
                { st with received := st.received + 1, batch := st.batch ++ [row] } := by
          unfold processRow
          rw [if_pos hv, if_pos (by
            simp only [List.length_append, List.length_cons, List.length_nil]
            omega)]
        rw [hstep]
        rw [List.append_cons st.batch row (rest.filter valid),
          chunks_cons_full hb hblen]
        unfold flushBatch
        dsimp only
        by_cases hf : flushOk (st.batch ++ [row])
        · rw [if_pos hf]
          obtain ⟨hc, hi, hfl, he⟩ := ih
            { st with received := st.received + 1,
                      inserted := st.inserted + (st.batch ++ [row]).length,
                      committed := st.committed ++ (st.batch ++ [row]),
                      batch := [] } (by simpa using hb)
          simp only [List.nil_append] at hc hi hfl he
          refine ⟨?_, ?_, ?_, ?_⟩
          · rw [hc]
            simp [List.filter_cons, hf, List.append_assoc]
          · rw [hi]
            simp [List.filter_cons, hf]
            omega
          · rw [hfl]
            simp [List.filter_cons, hf]
          · rw [he]
            simp [List.filter_cons, hf]
        · rw [if_neg hf]
          obtain ⟨hc, hi, hfl, he⟩ := ih
            { st with received := st.received + 1,
                      failed := st.failed + (st.batch ++ [row]).length,
                      errors := st.errors
                        ++ [.batchError
                              (st.received + 1 - (st.batch ++ [row]).length)],
                      batch := [] } (by simpa using hb)
          simp only [List.nil_append] at hc hi hfl he
          refine ⟨?_, ?_, ?_, ?_⟩
          · rw [hc]
            simp [List.filter_cons, hf]
          · rw [hi]
            simp [List.filter_cons, hf]
          · rw [hfl]
            simp [List.filter_cons, List.filter_append, hf, isBatchErr]
            omega
          · rw [he]
            simp [List.filter_cons, List.filter_append, hf, isBatchErr]
            omega
      · have hstep : processRow valid flushOk bsz st row
            = { st with received := st.received + 1, batch := st.batch ++ [row] } := by
          unfold processRow
          rw [if_pos hv, if_neg (by
            simp only [List.length_append, List.length_cons, List.length_nil]
            omega)]
        rw [hstep]
        obtain ⟨hc, hi, hfl, he⟩ := ih
          { st with received := st.received + 1, batch := st.batch ++ [row] }
          (by
            simp only [List.length_append, List.length_cons, List.length_nil]
            omega)
        rw [List.append_cons st.batch row (rest.filter valid)]
        exact ⟨by simpa using hc, by simpa using hi, by simpa using hfl,
          by simpa using he⟩
    · simp only [hv, if_false, Bool.not_false]
      have hstep : processRow valid flushOk bsz st row
          = { st with received := st.received + 1, failed := st.failed + 1,
                      errors := st.errors ++ [.rowError (st.received + 1)] } := by
        unfold processRow
        rw [if_neg (by simp [hv])]
      rw [hstep]
      obtain ⟨hc, hi, hfl, he⟩ := ih
        { st with received := st.received + 1, failed := st.failed + 1,
                  errors := st.errors ++ [.rowError (st.received + 1)] }
        (by simpa using hlt)
      refine ⟨by simpa using hc, by simpa using hi, ?_, ?_⟩
      · simp only [hfl]
        simp [List.length_cons]
        omega
      · simp only [he]
        simp [List.filter_append, isBatchErr]

/-- C6 (amended): batch-level accounting of a full pipeline run.  The
loop partitions the valid rows into consecutive batches; each batch
commits and is counted in rows_inserted exactly when its own flush
succeeds, otherwise its rows are counted in rows_failed and one
batch-level error entry is appended for it; every other batch and every
other row is unaffected, and the run always completes with full
accounting rather than aborting. -/
theorem batch_failure_isolated (valid : JValue → Bool)
    (flushOk : List JValue → Bool) (bsz : Nat) (hb : 0 < bsz)
    (rows : List JValue) :
    ((runPipeline valid flushOk bsz rows).committed
        = ((chunks bsz (rows.filter valid)).filter flushOk).flatten)
    ∧ ((runPipeline valid flushOk bsz rows).inserted
        = (((chunks bsz (rows.filter valid)).filter flushOk).map
            List.length).sum)
    ∧ ((runPipeline valid flushOk bsz rows).failed
        = (rows.filter (fun r => !(valid r))).length
          + (((chunks bsz (rows.filter valid)).filter
              (fun c => !(flushOk c))).map List.length).sum)
    ∧ (((runPipeline valid flushOk bsz rows).errors.filter isBatchErr).length
        = ((chunks bsz (rows.filter valid)).filter
            (fun c => !(flushOk c))).length) := by
  have h := run_decomposition valid flushOk bsz hb rows {} (by simpa using hb)
  simpa [runPipeline, runStream] using h

/-- Witness for C6 at a concrete input: batch size 2, five valid rows,
storage accepting exactly the full batches; the failing trailing batch
is isolated, the two full batches commit. -/
theorem batch_failure_isolated_witness :
    ((runPipeline (fun _ => true) (fun c => c.length == 2) 2
        [.num 1, .num 2, .num 3, .num 4, .num 5]).committed
        = ((chunks 2 ([.num 1, .num 2, .num 3, .num 4, .num 5].filter
            (fun _ => true))).filter (fun c => c.length == 2)).flatten)
    ∧ ((runPipeline (fun _ => true) (fun c => c.length == 2) 2
        [.num 1, .num 2, .num 3, .num 4, .num 5]).inserted
        = (((chunks 2 ([.num 1, .num 2, .num 3, .num 4, .num 5].filter
            (fun _ => true))).filter (fun c => c.length == 2)).map
              List.length).sum)
    ∧ ((runPipeline (fun _ => true) (fun c => c.length == 2) 2
        [.num 1, .num 2, .num 3, .num 4, .num 5]).failed
        = ([.num 1, .num 2, .num 3, .num 4, .num 5].filter
            (fun r => !((fun (_ : JValue) => true) r))).length
          + (((chunks 2 ([.num 1, .num 2, .num 3, .num 4, .num 5].filter
              (fun _ => true))).filter
                (fun c => !(c.length == 2))).map List.length).sum)
    ∧ (((runPipeline (fun _ => true) (fun c => c.length == 2) 2
          [.num 1, .num 2, .num 3, .num 4, .num 5]).errors.filter
            isBatchErr).length
        = ((chunks 2 ([.num 1, .num 2, .num 3, .num 4, .num 5].filter
            (fun _ => true))).filter (fun c => !(c.length == 2))).length) :=
  batch_failure_isolated (fun _ => true) (fun c => c.length == 2) 2
    (by decide) [.num 1, .num 2, .num 3, .num 4, .num 5]

/-- C6 counterexample to the claim as stated: when the failing flush is
the trailing partial batch, the appended error entry is the bare final
batch marker and carries no row numbers at all, so no error
identifying the affected row range is appended (compare the mid-stream
batchError entries, which carry a starting row).  Here rows 1-4 commit
as two full batches, row 5 fails in the trailing batch. -/
theorem trailing_batch_error_lacks_row_range :
    (runPipeline (fun _ => true) (fun c => c.length == 2) 2
        [.num 1, .num 2, .num 3, .num 4, .num 5]).errors
      = [.finalBatchError]
    ∧ (runPipeline (fun _ => true) (fun c => c.length == 2) 2
        [.num 1, .num 2, .num 3, .num 4, .num 5]).inserted = 4
    ∧ (runPipeline (fun _ => true) (fun c => c.length == 2) 2
        [.num 1, .num 2, .num 3, .num 4, .num 5]).failed = 1 :=
  ⟨rfl, rfl, rfl⟩

end ShopPulse
